import Mathlib

/-!
Shallow embedding of the CalenAI repository (src/calendar_manager.py and
src/ai_assistant.py).

Python events are dictionaries; we model them as insertion-ordered
association lists from string keys to string values, with Python's dict
semantics: assignment to an existing key updates it in place, assignment
to a new key appends it.  The store `CalendarManager.events` is likewise
an insertion-ordered mapping from date strings to lists of events.

File persistence (`save_calendar` / `load_calendar`) is I/O and is not
modelled; every mutation below corresponds to the in-memory effect of the
Python method.  Fresh ids (`str(uuid.uuid4())`) are modelled by threading
an id generator `gen : Nat -> String` together with a counter.

Python raises KeyError when `event["id"]` or `event["title"]` is read
from an event missing that key; events created by the store always carry
all five keys, and theorems that need it assume the keys are present.
In the model such a read yields `none` / the empty string.
-/

set_option maxRecDepth 200000

namespace CalenAI

/-- Lookup of the first (unique) binding of `k` in an insertion-ordered
association list — the model of Python's `d[k]` / `d.get(k)`. -/
def aget {α : Type} (d : List (String × α)) (k : String) : Option α :=
  match d with
  | [] => none
  | (k', v) :: rest => if k' = k then some v else aget rest k

/-- The model of Python's `d[k] = v`: update in place if the key exists,
else append at the end. -/
def aset {α : Type} (d : List (String × α)) (k : String) (v : α) :
    List (String × α) :=
  match d with
  | [] => [(k, v)]
  | (k', v') :: rest =>
      if k' = k then (k', v) :: rest else (k', v') :: aset rest k v

/-- Python dict with string keys and string values, insertion ordered. -/
abbrev Dict := List (String × String)

/-- Lookup `d[k]`. -/
def dget (d : Dict) (k : String) : Option String :=
  aget d k

/-- Membership `k in d`. -/
def dmem (d : Dict) (k : String) : Bool :=
  (dget d k).isSome

/-- Assignment `d[k] = v`. -/
def dset (d : Dict) (k v : String) : Dict :=
  aset d k v

/-- An event is a Python dict (normally with keys id, title, start_time,
end_time, description). -/
abbrev Event := Dict

/-- The map `CalendarManager.events`: date string -> ordered event list, insertion
ordered like a Python dict. -/
abbrev Store := List (String × List Event)

def sget (s : Store) (date : String) : Option (List Event) :=
  aget s date

def smem (s : Store) (date : String) : Bool :=
  (sget s date).isSome

def sset (s : Store) (date : String) (evs : List Event) : Store :=
  aset s date evs

/-- Key-name constants for the five event attributes and operation fields. -/
def idK : String := "id"
def titleK : String := "title"
def startK : String := "start_time"
def endK : String := "end_time"
def descK : String := "description"

/-- Source `get_events_for_day`: `self.events.get(date_str, [])`. -/
def get_events_for_day (s : Store) (date : String) : List Event :=
  (sget s date).getD []

/-- Source `add_event`: creates the day if absent, appends a fresh event built from
the five fields, returns the fresh id (supplied here as `newId`). -/
def add_event (s : Store) (date start_time end_time title description : String)
    (newId : String) : Store × String :=
  let s1 := if smem s date then s else sset s date []
  let event : Event :=
    [(idK, newId), (titleK, title), (startK, start_time), (endK, end_time),
     (descK, description)]
  (sset s1 date (get_events_for_day s1 date ++ [event]), newId)

/-- Source `delete_event`: filters out every event whose id matches, then reports
whether the day's list got shorter. -/
def delete_event (s : Store) (date event_id : String) : Store × Bool :=
  match sget s date with
  | none => (s, false)
  | some evs =>
      let evs' := evs.filter (fun e => ! (dget e idK == some event_id))
      let s' := sset s date evs'
      if evs'.length < evs.length then (s', true) else (s', false)

def lowerStr (s : String) : String :=
  String.mk (s.toList.map Char.toLower)

/-- The title of an event, lower-cased; `e["title"].lower()`. -/
def titleLower (e : Event) : String :=
  lowerStr ((dget e titleK).getD "")

/-- Python's `in` on strings: contiguous substring test (true for the
empty needle). -/
def isSubstrOf (needle hay : List Char) : Bool :=
  match hay with
  | [] => needle.isEmpty
  | c :: t => needle.isPrefixOf (c :: t) || isSubstrOf needle t

/-- One day of `delete_events_by_title`: the matching events and the
remaining events, by case-insensitive substring match on the title. -/
def titleMatches (needle : String) (e : Event) : Bool :=
  isSubstrOf (lowerStr needle).toList (titleLower e).toList

/-- Source `delete_events_by_title`: for every day in order, drop the events whose
lower-cased title contains the lower-cased argument; collect the dropped
events of every day whose length changed.  Returns (new store, deleted). -/
def delete_events_by_title (s : Store) (title : String) : Store × List Event :=
  s.foldl
    (fun acc p =>
      let matching := p.2.filter (titleMatches title)
      let remaining := p.2.filter (fun e => ! titleMatches title e)
      (acc.1 ++ [(p.1, remaining)],
       if p.2.length ≠ remaining.length then acc.2 ++ matching else acc.2))
    ([], [])

/-- The inner loop of `update_event`: for each key of `updated_fields` that
is already a key of the event, overwrite its value. -/
def applyFields (e : Event) (fields : Dict) : Event :=
  fields.foldl (fun e kv => if dmem e kv.1 then dset e kv.1 kv.2 else e) e

/-- Update the first event whose id matches; report whether one was found. -/
def updateFirst (evs : List Event) (event_id : String) (fields : Dict) :
    List Event × Bool :=
  match evs with
  | [] => ([], false)
  | e :: rest =>
      if dget e idK = some event_id then (applyFields e fields :: rest, true)
      else
        let (rest', b) := updateFirst rest event_id fields
        (e :: rest', b)

/-- Source `update_event`: locate the event by id within the day and merge the
known fields into it; return whether it was found. -/
def update_event (s : Store) (date event_id : String) (fields : Dict) :
    Store × Bool :=
  match sget s date with
  | none => (s, false)
  | some evs =>
      let (evs', found) := updateFirst evs event_id fields
      (if found then sset s date evs' else s, found)

/-- The loop of `move_event`: pop the first event whose id matches,
returning it together with the remaining list. -/
def extractFirst (evs : List Event) (event_id : String) :
    Option (Event × List Event) :=
  match evs with
  | [] => none
  | e :: rest =>
      if dget e idK = some event_id then some (e, rest)
      else (extractFirst rest event_id).map (fun p => (p.1, e :: p.2))

/-- Source `move_event`: pop the event from the old day, then append it unchanged
to the new day (created if absent); false and no change when not found. -/
def move_event (s : Store) (old_date event_id new_date : String) :
    Store × Bool :=
  match sget s old_date with
  | none => (s, false)
  | some evs =>
      match extractFirst evs event_id with
      | none => (s, false)
      | some (ev, evs') =>
          let s1 := sset s old_date evs'
          let s2 := if smem s1 new_date then s1 else sset s1 new_date []
          (sset s2 new_date (get_events_for_day s2 new_date ++ [ev]), true)

/-- Source `clear_day`: empty the day's list, returning what was removed
(the empty list when the day is absent). -/
def clear_day (s : Store) (date : String) : Store × List Event :=
  match sget s date with
  | none => (s, [])
  | some evs => (sset s date [], evs)

/-- The dict comprehension of `reorganize_day`: lower-cased title -> id over
the existing events (a later event overwrites an earlier equal title). -/
def titleIdMap (evs : List Event) : Dict :=
  evs.foldl (fun m e => dset m (titleLower e) ((dget e idK).getD "")) []

/-- The loop of `reorganize_day`: give every incoming event lacking an id
either the id of an existing same-titled event or a fresh generated id. -/
def assignIds (schedule : List Event) (m : Dict) (gen : Nat → String)
    (n : Nat) : List Event × Nat :=
  match schedule with
  | [] => ([], n)
  | e :: rest =>
      if dmem e idK then
        let (rest', n') := assignIds rest m gen n
        (e :: rest', n')
      else
        match dget m (titleLower e) with
        | some tid =>
            let (rest', n') := assignIds rest m gen n
            (dset e idK tid :: rest', n')
        | none =>
            let (rest', n') := assignIds rest m gen (n + 1)
            (dset e idK (gen n) :: rest', n')

/-- Source `reorganize_day`: create the day if absent, build the title->id map from
the existing events, fill in missing ids, replace the day's list. -/
def reorganize_day (s : Store) (date : String) (schedule : List Event)
    (gen : Nat → String) (n : Nat) : Store × Bool × Nat :=
  let s1 := if smem s date then s else sset s date []
  let m := titleIdMap (get_events_for_day s1 date)
  let (schedule', n') := assignIds schedule m gen n
  (sset s1 date schedule', true, n')

/-! ## Time normalizer: `convert_to_24h` -/

/-- Python regex `\s` on ASCII text. -/
def pyIsSpace (c : Char) : Bool :=
  c = ' ' || c = '\t' || c = '\n' || c = '\r' || c = '\x0b' || c = '\x0c'

/-- Python `str.strip()`. -/
def pyStrip (cs : List Char) : List Char :=
  ((cs.dropWhile pyIsSpace).reverse.dropWhile pyIsSpace).reverse

/-- The normalization `time_str.lower().strip()` as a character list. -/
def timeNorm (s : String) : List Char :=
  pyStrip (s.toList.map Char.toLower)

/-- Python `int()` of a digit run. -/
def digitsToNat (ds : List Char) : Nat :=
  ds.foldl (fun n c => n * 10 + (c.toNat - 48)) 0

/-- All ways `(\d+)` can split off a nonempty digit run, longest first
(the order a backtracking regex engine tries them). -/
def digitSplits (cs : List Char) : List (List Char × List Char) :=
  let ds := cs.takeWhile Char.isDigit
  let rest := cs.drop ds.length
  (List.range ds.length).map (fun j =>
    let k := ds.length - j
    (ds.take k, ds.drop k ++ rest))

inductive AmPm where
  | am
  | pm
deriving DecidableEq

/-- The tail `\s*(am|pm)` of the 12-hour pattern. -/
def matchAmPm (cs : List Char) : Option AmPm :=
  match cs.dropWhile pyIsSpace with
  | 'a' :: 'm' :: _ => some AmPm.am
  | 'p' :: 'm' :: _ => some AmPm.pm
  | _ => none

/-- Matching `(\d+)(?::(\d+))?\s*(am|pm)` at the start of the string: digits, an optional
colon-minutes group (taken greedily before skipped), whitespace, am/pm. -/
def match12h (cs : List Char) : Option (Nat × Nat × AmPm) :=
  (digitSplits cs).findSome? (fun p =>
    let withMin : Option (Nat × Nat × AmPm) :=
      match p.2 with
      | ':' :: r2 =>
          (digitSplits r2).findSome? (fun q =>
            (matchAmPm q.2).map (fun ap => (digitsToNat p.1, digitsToNat q.1, ap)))
      | _ => none
    withMin <|> (matchAmPm p.2).map (fun ap => (digitsToNat p.1, 0, ap)))

/-- Matching `(\d+)(?::(\d+))?` at the start of the string: bare 24-hour form.  With no tail
after the optional group the greedy first attempt always stands. -/
def matchBare (cs : List Char) : Option (Nat × Nat) :=
  let ds := cs.takeWhile Char.isDigit
  if ds = [] then none
  else
    match cs.drop ds.length with
    | ':' :: r2 =>
        let ms := r2.takeWhile Char.isDigit
        if ms = [] then some (digitsToNat ds, 0)
        else some (digitsToNat ds, digitsToNat ms)
    | _ => some (digitsToNat ds, 0)

/-- Source `convert_to_24h`: lower-case and strip, try the 12-hour pattern (pm adds
12 when the hour is below 12, am turns hour 12 into 0), then the bare
pattern, else 0. -/
def convert_to_24h (time_str : String) : Nat :=
  let cs := timeNorm time_str
  match match12h cs with
  | some (h, m, ap) =>
      let h' := if ap = AmPm.pm ∧ h < 12 then h + 12
                else if ap = AmPm.am ∧ h = 12 then 0 else h
      h' * 60 + m
  | none =>
      match matchBare cs with
      | some (h, m) => h * 60 + m
      | none => 0

/-! ## Command extractor: `extract_calendar_operations`

The two regexes of `ai_assistant.py` are modelled directly as lazy
(shortest-first) scanners over character lists, and `json.loads` as a
recursive-descent parser of the JSON grammar Python's strict decoder
accepts (double-quoted strings, objects/arrays/numbers/constants, with
`NaN`/`Infinity` allowed and numbers kept as lexemes). -/

def bq : Char := Char.ofNat 96
def lb : Char := Char.ofNat 123
def rb : Char := Char.ofNat 125
def dq : Char := Char.ofNat 34
def sq : Char := Char.ofNat 39
def bsl : Char := Char.ofNat 92

inductive Json where
  | null
  | bool (b : Bool)
  | num (lexeme : String)
  | str (s : String)
  | arr (xs : List Json)
  | obj (kvs : List (String × Json))

/-- JSON whitespace accepted by Python's decoder. -/
def jsonWs (c : Char) : Bool :=
  c = ' ' || c = '\t' || c = '\n' || c = '\r'

def hexVal (c : Char) : Option Nat :=
  if '0' ≤ c ∧ c ≤ '9' then some (c.toNat - 48)
  else if 'a' ≤ c ∧ c ≤ 'f' then some (c.toNat - 87)
  else if 'A' ≤ c ∧ c ≤ 'F' then some (c.toNat - 55)
  else none

/-- Body of a JSON string after the opening quote, with the escapes the
strict decoder accepts; unescaped control characters are rejected. -/
def parseStringBody : List Char → List Char → Option (String × List Char)
  | [], _ => none
  | c :: rest, acc =>
      if c = dq then some (String.mk acc.reverse, rest)
      else if c = bsl then
        match rest with
        | [] => none
        | e :: rest2 =>
            if e = dq then parseStringBody rest2 (dq :: acc)
            else if e = bsl then parseStringBody rest2 (bsl :: acc)
            else if e = '/' then parseStringBody rest2 ('/' :: acc)
            else if e = 'b' then parseStringBody rest2 ('\x08' :: acc)
            else if e = 'f' then parseStringBody rest2 ('\x0c' :: acc)
            else if e = 'n' then parseStringBody rest2 ('\n' :: acc)
            else if e = 'r' then parseStringBody rest2 ('\r' :: acc)
            else if e = 't' then parseStringBody rest2 ('\t' :: acc)
            else if e = 'u' then
              match rest2 with
              | h1 :: h2 :: h3 :: h4 :: rest3 =>
                  match hexVal h1, hexVal h2, hexVal h3, hexVal h4 with
                  | some a, some b, some c', some d =>
                      parseStringBody rest3
                        (Char.ofNat (a * 4096 + b * 256 + c' * 16 + d) :: acc)
                  | _, _, _, _ => none
              | _ => none
            else none
      else if c.toNat < 32 then none
      else parseStringBody rest (c :: acc)

/-- Fraction and exponent parts of a JSON number lexeme. -/
def parseNumberTail (sgn intPart : List Char) (r : List Char) :
    List Char × List Char :=
  let (fracPart, r') :=
  match r with
  | '.' :: r2 =>
      let ds := r2.takeWhile Char.isDigit
      if ds = [] then ([], r) else ('.' :: ds, r2.drop ds.length)
  | _ => ([], r)
let (expPart, r'') :=
  match r' with
  | e :: r2 =>
      if e = 'e' ∨ e = 'E' then
        let (esgn, r3) :=
          match r2 with
          | '+' :: r4 => (['+'], r4)
          | '-' :: r4 => (['-'], r4)
          | _ => ([], r2)
        let ds := r3.takeWhile Char.isDigit
        if ds = [] then ([], r') else (e :: (esgn ++ ds), r3.drop ds.length)
      else ([], r')
  | [] => ([], r')
(sgn ++ intPart ++ fracPart ++ expPart, r'')

/-- JSON number lexeme: `-?(0|[1-9][0-9]*)(\.[0-9]+)?([eE][+-]?[0-9]+)?`,
returned as the consumed characters. -/
def parseNumber (cs : List Char) : Option (List Char × List Char) :=
  let (sgn, r1) :=
    match cs with
    | '-' :: r => (['-'], r)
    | _ => ([], cs)
  match r1 with
  | '0' :: r2 =>
      some (parseNumberTail sgn ['0'] r2)
  | c :: _ =>
      if c.isDigit then
        let ds := r1.takeWhile Char.isDigit
        some (parseNumberTail sgn ds (r1.drop ds.length))
      else none
  | [] => none

/-- What the fuel-indexed scanner is currently parsing: a value, the
members of an object, or the elements of an array (with the pairs or
values collected so far). -/
inductive PMode where
  | value
  | members (acc : List (String × Json))
  | elems (acc : List Json)

/-- The scanner behind `json.loads`: skip whitespace, then dispatch on the first
character; objects and arrays recurse through the `members` / `elems`
modes.  Structural recursion on the fuel, which `jsonParse` supplies
amply. -/
def parseF : Nat → PMode → List Char → Option (Json × List Char)
  | 0, _, _ => none
  | f + 1, PMode.value, cs0 =>
    let cs := cs0.dropWhile jsonWs
    match cs with
    | [] => none
    | c :: rest =>
        if c = dq then
          (parseStringBody rest []).map (fun p => (Json.str p.1, p.2))
        else if c = lb then
          match rest.dropWhile jsonWs with
          | d :: r2 =>
              if d = rb then some (Json.obj [], r2)
              else parseF f (PMode.members []) rest
          | [] => none
        else if c = '[' then
          match rest.dropWhile jsonWs with
          | d :: r2 =>
              if d = ']' then some (Json.arr [], r2)
              else parseF f (PMode.elems []) rest
          | [] => none
        else if [ 't', 'r', 'u', 'e' ].isPrefixOf cs then
          some (Json.bool true, cs.drop 4)
        else if [ 'f', 'a', 'l', 's', 'e' ].isPrefixOf cs then
          some (Json.bool false, cs.drop 5)
        else if [ 'n', 'u', 'l', 'l' ].isPrefixOf cs then
          some (Json.null, cs.drop 4)
        else if [ 'N', 'a', 'N' ].isPrefixOf cs then
          some (Json.num "NaN", cs.drop 3)
        else if [ 'I', 'n', 'f', 'i', 'n', 'i', 't', 'y' ].isPrefixOf cs then
          some (Json.num "Infinity", cs.drop 8)
        else if [ '-', 'I', 'n', 'f', 'i', 'n', 'i', 't', 'y' ].isPrefixOf cs then
          some (Json.num "-Infinity", cs.drop 9)
        else
          (parseNumber cs).map (fun p => (Json.num (String.mk p.1), p.2))
  | f + 1, PMode.members acc, cs =>
    match cs.dropWhile jsonWs with
    | c :: rest =>
        if c = dq then
          match parseStringBody rest [] with
          | none => none
          | some (key, r1) =>
              match r1.dropWhile jsonWs with
              | ':' :: r2 =>
                  match parseF f PMode.value r2 with
                  | none => none
                  | some (v, r3) =>
                      match r3.dropWhile jsonWs with
                      | ',' :: r4 => parseF f (PMode.members (acc ++ [(key, v)])) r4
                      | d :: r4 =>
                          if d = rb then some (Json.obj (acc ++ [(key, v)]), r4)
                          else none
                      | [] => none
              | _ => none
        else none
    | [] => none
  | f + 1, PMode.elems acc, cs =>
    match parseF f PMode.value cs with
    | none => none
    | some (v, r1) =>
        match r1.dropWhile jsonWs with
        | ',' :: r2 => parseF f (PMode.elems (acc ++ [v])) r2
        | ']' :: r2 => some (Json.arr (acc ++ [v]), r2)
        | _ => none

/-- Model of `json.loads`: parse one value and require only whitespace after it. -/
def jsonParse (cs : List Char) : Option Json :=
  match parseF (cs.length + 2) PMode.value cs with
  | some (v, rest) => if rest.dropWhile jsonWs = [] then some v else none
  | none => none

/-- The optional `(?:json)?` tag right after the opening fence; taking it
when present is the only branch that can succeed, since skipping it leaves
`\s*\{` facing the letter j. -/
def stripJsonTag (cs : List Char) : List Char :=
  match cs with
  | 'j' :: 's' :: 'o' :: 'n' :: r => r
  | _ => cs

/-- Whitespace followed by a closing triple backtick; returns what follows. -/
def fenceClose (cs : List Char) : Option (List Char) :=
  match cs.dropWhile pyIsSpace with
  | a :: b :: c :: rest =>
      if a = bq ∧ b = bq ∧ c = bq then some rest else none
  | _ => none

/-- The lazy `[\s\S]*?\}` of the fenced-block regex: stop at the first
closing brace that is followed by `\s*` plus a closing fence; any other
character (closing braces included) is swallowed by the lazy star. -/
def lazyBody : List Char → List Char → Option (List Char × List Char)
  | [], _ => none
  | c :: rest, acc =>
      if c = rb then
        match fenceClose rest with
        | some after => some (lb :: (acc.reverse ++ [rb]), after)
        | none => lazyBody rest (c :: acc)
      else lazyBody rest (c :: acc)

/-- Try the fenced-block regex anchored at this position:
triple backtick, optional json tag, `\s*`, then the brace group. -/
def fencedAt (cs : List Char) : Option (List Char × List Char) :=
  match cs with
  | a :: b :: c :: rest =>
      if a = bq ∧ b = bq ∧ c = bq then
        match (stripJsonTag rest).dropWhile pyIsSpace with
        | d :: body => if d = lb then lazyBody body [] else none
        | [] => none
      else none
  | _ => none

/-- Scanning as in `re.findall`: try the pattern at every position left to right,
resuming after each match (fuel = remaining length). -/
def findBlocksAux : Nat → List Char → List (List Char)
  | 0, _ => []
  | f + 1, cs =>
    match cs with
    | [] => []
    | _ :: rest =>
        match fencedAt cs with
        | some (grp, after) => grp :: findBlocksAux f after
        | none => findBlocksAux f rest

def findFencedBlocks (cs : List Char) : List (List Char) :=
  findBlocksAux cs.length cs

/-- The literal `"calendar_operations"` (quotes included) of the fallback
regex. -/
def calOpsLit : List Char :=
  dq :: ("calendar_operations".toList ++ [dq])

/-- The lazy `[\s\S]*?\]` then `\s*\}` tail of the fallback regex. -/
def looseTail : List Char → List Char → Option (List Char × List Char)
  | [], _ => none
  | c :: rest, acc =>
      if c = ']' then
        let w := rest.takeWhile pyIsSpace
        match rest.dropWhile pyIsSpace with
        | d :: after =>
            if d = rb then some (acc.reverse ++ (']' :: (w ++ [rb])), after)
            else looseTail rest (c :: acc)
        | [] => looseTail rest (c :: acc)
      else looseTail rest (c :: acc)

/-- The continuation after the first lazy star of the fallback regex:
the quoted key literal, `\s*:\s*\[`, then the lazy bracket tail. -/
def looseCont (cs : List Char) : Option (List Char × List Char) :=
  if calOpsLit.isPrefixOf cs then
    let r0 := cs.drop calOpsLit.length
    let w1 := r0.takeWhile pyIsSpace
    match r0.dropWhile pyIsSpace with
    | ':' :: r2 =>
        let w2 := r2.takeWhile pyIsSpace
        match r2.dropWhile pyIsSpace with
        | '[' :: r4 =>
            match looseTail r4 [] with
            | some (tail, after) =>
                some (calOpsLit ++ (w1 ++ (':' :: (w2 ++ ('[' :: tail)))), after)
            | none => none
        | _ => none
    | _ => none
  else none

/-- First lazy star of the fallback regex: scan forward for the earliest
position where the key literal plus its continuation match. -/
def looseScan : List Char → List Char → Option (List Char × List Char)
  | cs, acc =>
    match looseCont cs with
    | some (consumed, after) => some (acc.reverse ++ consumed, after)
    | none =>
        match cs with
        | [] => none
        | c :: rest => looseScan rest (c :: acc)

/-- Try the fallback regex
`\{[\s\S]*?"calendar_operations"\s*:\s*\[[\s\S]*?\]\s*\}` at this
position. -/
def looseAt (cs : List Char) : Option (List Char × List Char) :=
  match cs with
  | c :: rest =>
      if c = lb then
        (looseScan rest []).map (fun p => (lb :: p.1, p.2))
      else none
  | [] => none

def findLooseAux : Nat → List Char → List (List Char)
  | 0, _ => []
  | f + 1, cs =>
    match cs with
    | [] => []
    | _ :: rest =>
        match looseAt cs with
        | some (grp, after) => grp :: findLooseAux f after
        | none => findLooseAux f rest

def findLooseBlocks (cs : List Char) : List (List Char) :=
  findLooseAux cs.length cs

/-- The candidate blocks: all fenced matches, or, when there are none, all
fallback matches. -/
def candidateBlocks (cs : List Char) : List (List Char) :=
  let bs := findFencedBlocks cs
  if bs = [] then findLooseBlocks cs else bs

/-- The repair replacing every single quote by a double quote. -/
def replaceQuotes (cs : List Char) : List Char :=
  cs.map (fun c => if c = sq then dq else c)

/-- Access `data["calendar_operations"]` when `"calendar_operations" in data`;
a candidate block always starts with an opening brace, so a successful
parse is an object. Duplicate keys: the last binding wins, as in a Python
dict built from JSON. -/
def getCalOps (j : Json) : Option Json :=
  match j with
  | Json.obj kvs =>
      ((kvs.filter (fun p => p.1 = "calendar_operations")).map Prod.snd).getLast?
  | _ => none

/-- One iteration of the extraction loop: strict parse, and only on a parse
error the single-quote repair; a block that parses but lacks the key is
skipped without a repair attempt. -/
def tryBlock (b : List Char) : Option Json :=
  match jsonParse b with
  | some data => getCalOps data
  | none =>
      match jsonParse (replaceQuotes b) with
      | some data => getCalOps data
      | none => none

/-- The `for json_block in json_blocks` loop with its `break`: first
successful candidate wins, the rest are ignored; no success means the
initial empty list. -/
def selectOps (bs : List (List Char)) : Json :=
  match bs with
  | [] => Json.arr []
  | b :: rest =>
      match tryBlock b with
      | some ops => ops
      | none => selectOps rest

/-- Source `extract_calendar_operations` (its unused `calendar_manager` argument
is dropped). -/
def extract_calendar_operations (response : String) : Json :=
  selectOps (candidateBlocks response.toList)

/-- Response text with two fenced blocks; only the second is valid JSON
with the recognized key. -/
def twoBlockText : String :=
  "Sure!\n```json\n\x7binvalid\x7d\n```\nmore text\n```json\n\x7b \"calendar_operations\": [\x7b\"operation\": \"clear_day\", \"date\": \"2025-01-02\"\x7d] \x7d\n```\ndone"

/-- Response text whose block uses single-quote delimiters. -/
def singleQuoteText : String :=
  "```json\n\x7b'calendar_operations': [\x7b'operation': 'clear_day', 'date': '2025-01-03'\x7d]\x7d\n```"

def clearDayOp (d : String) : Json :=
  Json.obj [("operation", Json.str "clear_day"), ("date", Json.str d)]

example :
    extract_calendar_operations twoBlockText = Json.arr [ clearDayOp "2025-01-02" ] := by
  rfl

example :
    extract_calendar_operations singleQuoteText = Json.arr [ clearDayOp "2025-01-03" ] := by
  rfl

/-! ## Operation dispatcher: `process_calendar_operations`

An extracted operation entry is a Python dict whose values are strings
(the scalar fields), a dict (the `fields` of update_event) or a list of
event dicts (the `schedule` of reorganize_day).  Python truthiness of a
value: empty string / empty dict / empty list / absent are falsy. -/

inductive OVal where
  | s (v : String)
  | d (v : Dict)
  | l (v : List Event)

abbrev OpEntry := List (String × OVal)

def oget (op : OpEntry) (k : String) : Option OVal :=
  match op with
  | [] => none
  | (k', v) :: rest => if k' = k then some v else oget rest k

/-- Python truthiness of `op.get(k)`. -/
def truthy (op : OpEntry) (k : String) : Bool :=
  match oget op k with
  | none => false
  | some (OVal.s v) => v ≠ ""
  | some (OVal.d v) => v ≠ []
  | some (OVal.l v) => v ≠ []

/-- A scalar field (the protocol's scalar fields are strings). -/
def ogetStr (op : OpEntry) (k : String) : String :=
  match oget op k with
  | some (OVal.s v) => v
  | _ => ""

/-- Lookup of the fields dict, defaulting to the empty dict. -/
def ogetDict (op : OpEntry) (k : String) : Dict :=
  match oget op k with
  | some (OVal.d v) => v
  | _ => []

/-- Lookup of the schedule list, defaulting to the empty list. -/
def ogetList (op : OpEntry) (k : String) : List Event :=
  match oget op k with
  | some (OVal.l v) => v
  | _ => []

/-- One iteration of the dispatcher loop: the confirmation lines this entry
appends (empty when the entry is skipped or its store call fails), the new
store and the new fresh-id counter. -/
def processOne (op : OpEntry) (s : Store) (gen : Nat → String) (n : Nat) :
    List String × Store × Nat :=
  match oget op "operation" with
  | some (OVal.s opType) =>
    if opType = "add_event" then
      let date := ogetStr op "date"
      let start_time := ogetStr op "start_time"
      let end_time := ogetStr op "end_time"
      let title := ogetStr op "title"
      let description := ogetStr op "description"
      if truthy op "date" && truthy op "start_time" && truthy op "end_time"
          && truthy op "title" then
        let (s', _) := add_event s date start_time end_time title description (gen n)
        ([ "Added event: " ++ title ++ " at " ++ start_time ++ "-" ++ end_time
             ++ " on " ++ date ], s', n + 1)
      else ([], s, n)
    else if opType = "delete_event" then
      let date := ogetStr op "date"
      let event_id := ogetStr op "event_id"
      if truthy op "date" && truthy op "event_id" then
        let (s', success) := delete_event s date event_id
        (if success then [ "Deleted event with ID " ++ event_id ] else [], s', n)
      else ([], s, n)
    else if opType = "delete_events_by_title" then
      let title := ogetStr op "title"
      if truthy op "title" then
        let (s', deleted) := delete_events_by_title s title
        (if deleted ≠ [] then
           [ "Deleted " ++ toString deleted.length
               ++ " events with title containing '" ++ title ++ "'" ]
         else [], s', n)
      else ([], s, n)
    else if opType = "update_event" then
      let date := ogetStr op "date"
      let event_id := ogetStr op "event_id"
      let updated_fields := ogetDict op "fields"
      if truthy op "date" && truthy op "event_id" && updated_fields ≠ [] then
        let (s', success) := update_event s date event_id updated_fields
        (if success then
           [ "Updated event " ++ event_id ++ ": "
               ++ String.intercalate ", "
                    (updated_fields.map (fun kv => kv.1 ++ ": " ++ kv.2)) ]
         else [], s', n)
      else ([], s, n)
    else if opType = "move_event" then
      let old_date := ogetStr op "old_date"
      let new_date := ogetStr op "new_date"
      let event_id := ogetStr op "event_id"
      if truthy op "old_date" && truthy op "new_date" && truthy op "event_id" then
        let (s', success) := move_event s old_date event_id new_date
        (if success then
           [ "Moved event " ++ event_id ++ " from " ++ old_date ++ " to " ++ new_date ]
         else [], s', n)
      else ([], s, n)
    else if opType = "clear_day" then
      let date := ogetStr op "date"
      if truthy op "date" then
        let (s', removed) := clear_day s date
        (if removed ≠ [] then
           [ "Cleared " ++ toString removed.length ++ " events from " ++ date ]
         else [], s', n)
      else ([], s, n)
    else if opType = "reorganize_day" then
      let date := ogetStr op "date"
      let schedule := ogetList op "schedule"
      if truthy op "date" && schedule ≠ [] then
        let (s', success, n') := reorganize_day s date schedule gen n
        (if success then
           [ "Reorganized schedule for " ++ date ++ " with "
               ++ toString schedule.length ++ " events" ]
         else [], s', n')
      else ([], s, n)
    else ([], s, n)
  | _ => ([], s, n)

/-- The dispatcher loop over the whole batch, in order. -/
def processAux (ops : List OpEntry) (s : Store) (gen : Nat → String) (n : Nat) :
    List String × Store × Nat :=
  match ops with
  | [] => ([], s, n)
  | op :: rest =>
      let (lines, s', n') := processOne op s gen n
      let (linesRest, s'', n'') := processAux rest s' gen n'
      (lines ++ linesRest, s'', n'')

/-- Source `process_calendar_operations`: newline-joined confirmations, or the
fixed sentinel when the batch produced none. -/
def process_calendar_operations (ops : List OpEntry) (s : Store)
    (gen : Nat → String) (n : Nat) : String × Store × Nat :=
  let r := processAux ops s gen n
  ((if r.1 = [] then "No calendar operations performed."
    else String.intercalate "\n" r.1), r.2.1, r.2.2)

/-! ## Association-list lemmas -/

theorem aget_aset_self {α : Type} (d : List (String × α)) (k : String) (v : α) :
    aget (aset d k v) k = some v := by
  induction d with
  | nil => simp [aget, aset]
  | cons hd tl ih =>
      obtain ⟨k0, v0⟩ := hd
      by_cases h : k0 = k
      · subst h
        simp [aget, aset]
      · simp [aget, aset, h, ih]

theorem aget_aset_ne {α : Type} (d : List (String × α)) (k k' : String) (v : α)
    (h : k ≠ k') : aget (aset d k v) k' = aget d k' := by
  induction d with
  | nil => simp [aget, aset, h]
  | cons hd tl ih =>
      obtain ⟨k0, v0⟩ := hd
      by_cases h1 : k0 = k
      · subst h1
        simp [aget, aset, h]
      · simp [aget, aset, h1, ih]

theorem aset_of_aget {α : Type} (d : List (String × α)) (k : String) (v : α)
    (h : aget d k = some v) : aset d k v = d := by
  induction d with
  | nil => simp [aget] at h
  | cons hd tl ih =>
      obtain ⟨k0, v0⟩ := hd
      by_cases h1 : k0 = k
      · subst h1
        have hv : v0 = v := by simpa [aget] using h
        subst hv
        simp [aset]
      · have h' : aget tl k = some v := by simpa [aget, h1] using h
        simp [aset, h1, ih h']

theorem aget_isSome_aset {α : Type} (d : List (String × α)) (k k' : String) (v : α)
    (h : (aget d k').isSome) : (aget (aset d k v) k').isSome := by
  by_cases hk : k = k'
  · subst hk
    simp [aget_aset_self]
  · simpa [aget_aset_ne d k k' v hk] using h

/-! ## C1: `update_event` and event ids -/

/-- Each day's list of event ids, in store order. -/
def storeIds (s : Store) : List (String × List (Option String)) :=
  s.map (fun p => (p.1, p.2.map (fun e => dget e idK)))

theorem dget_applyFields_id (e : Event) (fields : Dict)
    (h : dget fields idK = none) :
    dget (applyFields e fields) idK = dget e idK := by
  induction fields generalizing e with
  | nil => simp [applyFields]
  | cons kv rest ih =>
      have h1 : ¬ kv.1 = idK := by
        intro hc
        simp [dget, aget, hc] at h
      have h2 : dget rest idK = none := by
        simpa [dget, aget, h1] using h
      show dget (applyFields _ _) idK = _
      rw [applyFields, List.foldl_cons]
      by_cases hm : dmem e kv.1
      · rw [show (if dmem e kv.1 then dset e kv.1 kv.2 else e) = dset e kv.1 kv.2 by
            simp [hm]]
        rw [← applyFields, ih _ h2]
        exact aget_aset_ne e kv.1 idK kv.2 h1
      · rw [show (if dmem e kv.1 then dset e kv.1 kv.2 else e) = e by simp [hm]]
        rw [← applyFields, ih _ h2]

theorem updateFirst_ids (evs : List Event) (event_id : String) (fields : Dict)
    (h : dget fields idK = none) :
    ((updateFirst evs event_id fields).1).map (fun e => dget e idK)
      = evs.map (fun e => dget e idK) := by
  induction evs with
  | nil => simp [updateFirst]
  | cons e rest ih =>
      by_cases he : dget e idK = some event_id
      · simp [updateFirst, he, dget_applyFields_id e fields h]
      · simp [updateFirst, he, ih]

theorem storeIds_sset (s : Store) (date : String) (evs evs' : List Event)
    (hs : sget s date = some evs)
    (h : evs'.map (fun e => dget e idK) = evs.map (fun e => dget e idK)) :
    storeIds (sset s date evs') = storeIds s := by
  induction s with
  | nil => simp [sget, aget] at hs
  | cons hd tl ih =>
      by_cases h1 : hd.1 = date
      · have : hd.2 = evs := by
          simpa [sget, aget, h1] using hs
        subst this
        simp [sset, aset, storeIds, h1, h]
      · have hs' : sget tl date = some evs := by
          simpa [sget, aget, h1] using hs
        have := ih hs'
        simpa [sset, aset, storeIds, h1] using this

/-- C1 counterexample input: one event with id a, updated with a fields
dict that carries the key id. -/
def c1Event : Event :=
  [(idK, "a"), (titleK, "t"), (startK, "9am"), (endK, "10am"), (descK, "")]

def c1Store : Store :=
  [( "2025-01-01", [c1Event])]

/-- C1 counterexample: `update_event` with `fields = \x7b"id": "b"\x7d` replaces
the matched event's id, so an update can regenerate an id. -/
theorem update_event_can_change_id :
    storeIds (update_event c1Store "2025-01-01" "a" [(idK, "b")]).1
      ≠ storeIds c1Store := by
  decide

/-- C1 (amended): if `fields` does not carry the key `"id"`, an
`update_event` call leaves the id of every event in the store unchanged. -/
theorem update_event_preserves_ids (s : Store) (date event_id : String)
    (fields : Dict) (h : dget fields idK = none) :
    storeIds (update_event s date event_id fields).1 = storeIds s := by
  unfold update_event
  cases hs : sget s date with
  | none => rfl
  | some evs =>
      simp only
      by_cases hf : (updateFirst evs event_id fields).2
      · simp only [hf, if_true]
        exact storeIds_sset s date evs _ hs (updateFirst_ids evs event_id fields h)
      · simp [hf]

/-- Witness for C1: a concrete update that changes the title but not the id
leaves every id in place. -/
theorem update_event_preserves_ids_witness :
    storeIds (update_event c1Store "2025-01-01" "a" [(titleK, "u")]).1
      = storeIds c1Store :=
  update_event_preserves_ids c1Store "2025-01-01" "a" [(titleK, "u")] (by decide)

/-! ## C8: `delete_event` -/

theorem filter_length_lt_of_mem {α : Type} (l : List α) (p : α → Bool) (x : α)
    (hx : x ∈ l) (hpx : p x = false) : (l.filter p).length < l.length := by
  induction l with
  | nil => cases hx
  | cons a t ih =>
      rcases List.mem_cons.mp hx with h | h
      · subst h
        simp only [List.filter_cons, hpx]
        exact Nat.lt_succ_of_le (List.length_filter_le p t)
      · cases hpa : p a with
        | true =>
            simp only [List.filter_cons, hpa]
            exact Nat.succ_lt_succ (ih h)
        | false =>
            simp only [List.filter_cons, hpa]
            exact Nat.lt_succ_of_lt (ih h)

/-- C8: `delete_event` returns true exactly when a removal occurred.  When
an event with the id is present, the day keeps exactly the events with a
different id, an immediately repeated call returns false; when no such
event is present (day absent included) the call returns the store
unchanged with false. -/
theorem delete_event_spec (s : Store) (date event_id : String) :
    ((∃ e ∈ get_events_for_day s date, dget e idK = some event_id) →
        (delete_event s date event_id).2 = true
        ∧ get_events_for_day (delete_event s date event_id).1 date
            = (get_events_for_day s date).filter
                (fun e => ! (dget e idK == some event_id))
        ∧ (delete_event (delete_event s date event_id).1 date event_id).2 = false)
    ∧ ((∀ e ∈ get_events_for_day s date, dget e idK ≠ some event_id) →
        delete_event s date event_id = (s, false)) := by
  constructor
  · rintro ⟨e, he, hid⟩
    cases hs : sget s date with
    | none =>
        rw [show get_events_for_day s date = [] by simp [get_events_for_day, hs]] at he
        cases he
    | some evs =>
        have hev : get_events_for_day s date = evs := by
          simp [get_events_for_day, hs]
        rw [hev] at he
        have hpx : (fun e => ! (dget e idK == some event_id)) e = false := by
          simp [hid]
        have hlt := filter_length_lt_of_mem evs
          (fun e => ! (dget e idK == some event_id)) e he hpx
        have hrun : delete_event s date event_id
            = (sset s date (evs.filter (fun e => ! (dget e idK == some event_id))), true) := by
          unfold delete_event
          rw [hs]
          simp [hlt]
        refine ⟨by rw [hrun], ?_, ?_⟩
        · rw [hrun, hev]
          simp [get_events_for_day, sget, sset, aget_aset_self]
        · rw [hrun]
          unfold delete_event
          rw [show sget (sset s date (evs.filter (fun e => ! (dget e idK == some event_id)))) date
                = some (evs.filter (fun e => ! (dget e idK == some event_id))) from
              aget_aset_self s date _]
          have hself : (evs.filter (fun e => ! (dget e idK == some event_id))).filter
              (fun e => ! (dget e idK == some event_id))
              = evs.filter (fun e => ! (dget e idK == some event_id)) := by
            apply List.filter_eq_self.mpr
            intro a ha
            exact (List.mem_filter.mp ha).2
          simp [hself]
  · intro h
    cases hs : sget s date with
    | none =>
        unfold delete_event
        rw [hs]
    | some evs =>
        have hev : get_events_for_day s date = evs := by
          simp [get_events_for_day, hs]
        rw [hev] at h
        have hself : evs.filter (fun e => ! (dget e idK == some event_id)) = evs := by
          apply List.filter_eq_self.mpr
          intro a ha
          simpa using h a ha
        unfold delete_event
        rw [hs]
        simp only [hself, Nat.lt_irrefl, if_false]
        have hx : sset s date evs = s := aset_of_aget s date evs hs
        rw [hx]

/-- Witness for C8 at a concrete one-event store: first call true, second
call false. -/
theorem delete_event_spec_witness :
    (delete_event c1Store "2025-01-01" "a").2 = true
    ∧ (delete_event (delete_event c1Store "2025-01-01" "a").1 "2025-01-01" "a").2
        = false := by
  have h := (delete_event_spec c1Store "2025-01-01" "a").1 (by decide)
  exact ⟨h.1, h.2.2⟩

/-! ## C7: `move_event` -/

theorem sget_sset_self (s : Store) (date : String) (evs : List Event) :
    sget (sset s date evs) date = some evs :=
  aget_aset_self s date evs

theorem sget_sset_ne (s : Store) (d d' : String) (evs : List Event)
    (h : d ≠ d') : sget (sset s d evs) d' = sget s d' :=
  aget_aset_ne s d d' evs h

theorem sset_of_sget (s : Store) (date : String) (evs : List Event)
    (h : sget s date = some evs) : sset s date evs = s :=
  aset_of_aget s date evs h

theorem extractFirst_eq_none (evs : List Event) (event_id : String)
    (h : ∀ e ∈ evs, dget e idK ≠ some event_id) :
    extractFirst evs event_id = none := by
  induction evs with
  | nil => rfl
  | cons e rest ih =>
      have he := h e (List.mem_cons_self e rest)
      have hr : ∀ e ∈ rest, dget e idK ≠ some event_id := by
        intro x hx
        exact h x (List.mem_cons_of_mem e hx)
      simp [extractFirst, he, ih hr]

theorem extractFirst_some (evs : List Event) (event_id : String)
    (ev : Event) (evs' : List Event)
    (h : extractFirst evs event_id = some (ev, evs')) :
    dget ev idK = some event_id ∧ ev ∈ evs := by
  induction evs generalizing evs' with
  | nil => simp [extractFirst] at h
  | cons e rest ih =>
      by_cases he : dget e idK = some event_id
      · simp only [extractFirst, he, if_true, Option.some.injEq, Prod.mk.injEq] at h
        exact ⟨h.1 ▸ he, h.1 ▸ List.mem_cons_self e rest⟩
      · simp only [extractFirst, he, if_false, Option.map_eq_some'] at h
        obtain ⟨p, hp, hpe⟩ := h
        cases hpe
        have := ih p.2 (by rw [hp])
        exact ⟨this.1, List.mem_cons_of_mem e this.2⟩

/-- C7: when an event with the id sits in the old day, `move_event` pops it
and appends the very same dict to the new day (created if absent), returns
true, and touches no other day; when no such event exists it returns the
store unchanged with false. -/
theorem move_event_spec (s : Store) (old_date event_id new_date : String) :
    ((∀ e ∈ get_events_for_day s old_date, dget e idK ≠ some event_id) →
        move_event s old_date event_id new_date = (s, false))
    ∧ (∀ ev evs',
        extractFirst (get_events_for_day s old_date) event_id = some (ev, evs') →
        (move_event s old_date event_id new_date).2 = true
        ∧ dget ev idK = some event_id
        ∧ ev ∈ get_events_for_day s old_date
        ∧ get_events_for_day (move_event s old_date event_id new_date).1 new_date
            = (if old_date = new_date then evs'
               else get_events_for_day s new_date) ++ [ev]
        ∧ (old_date ≠ new_date →
            get_events_for_day (move_event s old_date event_id new_date).1 old_date
              = evs')
        ∧ (∀ d, d ≠ old_date → d ≠ new_date →
            get_events_for_day (move_event s old_date event_id new_date).1 d
              = get_events_for_day s d)) := by
  constructor
  · intro h
    cases hs : sget s old_date with
    | none =>
        simp only [move_event, hs]
    | some evs =>
        have hev : get_events_for_day s old_date = evs := by
          simp [get_events_for_day, hs]
        rw [hev] at h
        simp only [move_event, hs, extractFirst_eq_none evs event_id h]
  · intro ev evs' hex
    cases hs : sget s old_date with
    | none =>
        rw [show get_events_for_day s old_date = [] by
          simp [get_events_for_day, hs]] at hex
        simp [extractFirst] at hex
    | some evs =>
        have hev : get_events_for_day s old_date = evs := by
          simp [get_events_for_day, hs]
        rw [hev] at hex
        obtain ⟨hid, hmem⟩ := extractFirst_some evs event_id ev evs' hex
        have hrun : move_event s old_date event_id new_date
            = (sset (if smem (sset s old_date evs') new_date
                     then sset s old_date evs'
                     else sset (sset s old_date evs') new_date []) new_date
                (get_events_for_day
                  (if smem (sset s old_date evs') new_date
                   then sset s old_date evs'
                   else sset (sset s old_date evs') new_date []) new_date ++ [ev]),
               true) := by
          simp only [move_event, hs, hex]
        refine ⟨by rw [hrun], hid, hev ▸ hmem, ?_, ?_, ?_⟩
        · rw [hrun]
          simp only [get_events_for_day]
          rw [sget_sset_self]
          simp only [Option.getD_some]
          by_cases hon : old_date = new_date
          · subst hon
            have hm : smem (sset s old_date evs') old_date = true := by
              simp [smem, sget_sset_self]
            rw [if_pos hm, sget_sset_self, Option.getD_some, if_pos rfl]
          · rw [if_neg hon]
            cases hn : sget s new_date with
            | none =>
                have hm : ¬ (smem (sset s old_date evs') new_date = true) := by
                  simp [smem, sget_sset_ne s old_date new_date evs' hon, hn]
                rw [if_neg hm, sget_sset_self, Option.getD_some]
                rfl
            | some l =>
                have hm : smem (sset s old_date evs') new_date = true := by
                  simp [smem, sget_sset_ne s old_date new_date evs' hon, hn]
                rw [if_pos hm, sget_sset_ne s old_date new_date evs' hon, hn]
        · intro hon
          rw [hrun]
          simp only [get_events_for_day]
          rw [sget_sset_ne _ new_date old_date _ (Ne.symm hon)]
          by_cases hm : smem (sset s old_date evs') new_date = true
          · rw [if_pos hm, sget_sset_self, Option.getD_some]
          · rw [if_neg hm, sget_sset_ne _ new_date old_date _ (Ne.symm hon),
              sget_sset_self, Option.getD_some]
        · intro d hdo hdn
          rw [hrun]
          simp only [get_events_for_day]
          rw [sget_sset_ne _ new_date d _ (Ne.symm hdn)]
          by_cases hm : smem (sset s old_date evs') new_date = true
          · rw [if_pos hm, sget_sset_ne _ old_date d _ (Ne.symm hdo)]
          · rw [if_neg hm, sget_sset_ne _ new_date d _ (Ne.symm hdn),
              sget_sset_ne _ old_date d _ (Ne.symm hdo)]

/-- Witness for C7: moving the single event of one day to another day. -/
theorem move_event_spec_witness :
    (move_event c1Store "2025-01-01" "a" "2025-01-05").2 = true
    ∧ get_events_for_day (move_event c1Store "2025-01-01" "a" "2025-01-05").1
        "2025-01-05" = [c1Event] := by
  have h := (move_event_spec c1Store "2025-01-01" "a" "2025-01-05").2 c1Event []
    (by decide)
  refine ⟨h.1, ?_⟩
  have h4 := h.2.2.2.1
  rw [if_neg (by decide)] at h4
  rw [h4]
  decide

/-! ## C2 and C9: the time normalizer -/

/-- C2 counterexample: the bare pattern accepts out-of-range hours, so the
result is not always within [0, 1439]. -/
theorem convert_to_24h_range_cex :
    convert_to_24h "25:00" = 1500 ∧ ¬ convert_to_24h "25:00" ≤ 1439 := by
  decide

/-- C2 (amended): `convert_to_24h` is a pure total function into the
naturals, unparseable input yields 0, and the result lies in [0, 1439]
whenever the parsed components are in range (hour at most 12 for the
am/pm shape, at most 23 for the bare shape, minute at most 59); nothing
bounds out-of-range components like "25:00". -/
theorem convert_to_24h_range (s : String) :
    (∀ h m ap, match12h (timeNorm s) = some (h, m, ap) → h ≤ 12 → m ≤ 59 →
        convert_to_24h s ≤ 1439)
    ∧ (match12h (timeNorm s) = none → ∀ h m,
        matchBare (timeNorm s) = some (h, m) → h ≤ 23 → m ≤ 59 →
        convert_to_24h s ≤ 1439)
    ∧ (match12h (timeNorm s) = none → matchBare (timeNorm s) = none →
        convert_to_24h s = 0) := by
  refine ⟨?_, ?_, ?_⟩
  · intro h m ap hm h12 m59
    simp only [convert_to_24h, hm]
    have hb : (if ap = AmPm.pm ∧ h < 12 then h + 12
               else if ap = AmPm.am ∧ h = 12 then 0 else h) ≤ 23 := by
      split_ifs <;> omega
    omega
  · intro hm12 h m hmb h23 m59
    simp only [convert_to_24h, hm12, hmb]
    omega
  · intro hm12 hmb
    simp only [convert_to_24h, hm12, hmb]

/-- Witness for C2 (amended): concrete in-range and unparseable inputs. -/
theorem convert_to_24h_range_witness :
    convert_to_24h "11:59pm" ≤ 1439 ∧ convert_to_24h "noon" = 0 := by
  constructor
  · exact (convert_to_24h_range "11:59pm").1 11 59 AmPm.pm (by decide)
      (by decide) (by decide)
  · exact (convert_to_24h_range "noon").2.2 (by decide) (by decide)

/-- C9: on the 12-hour shape with hour between 1 and 12, pm adds 12 unless
the hour is 12 and am maps hour 12 to 0, the result being hour*60+minute;
plus the four quoted samples. -/
theorem convert_to_24h_12h_rule :
    (∀ s h m ap, match12h (timeNorm s) = some (h, m, ap) → 1 ≤ h → h ≤ 12 →
        convert_to_24h s
          = (if ap = AmPm.pm then (if h = 12 then 12 else h + 12)
             else (if h = 12 then 0 else h)) * 60 + m)
    ∧ convert_to_24h "9:00am" = 540
    ∧ convert_to_24h "12:00pm" = 720
    ∧ convert_to_24h "12:00am" = 0
    ∧ convert_to_24h "11:30pm" = 1410 := by
  refine ⟨?_, by decide, by decide, by decide, by decide⟩
  intro s h m ap hm h1 h12
  simp only [convert_to_24h, hm]
  congr 1
  congr 1
  cases ap with
  | am =>
      by_cases he : h = 12
      · subst he
        simp
      · simp [he]
  | pm =>
      by_cases he : h = 12
      · subst he
        simp
      · have hlt : h < 12 := lt_of_le_of_ne h12 he
        simp [he, hlt]

/-- Witness for C9: the rule applied at the concrete input "11:30pm". -/
theorem convert_to_24h_12h_rule_witness :
    convert_to_24h "11:30pm"
      = (if AmPm.pm = AmPm.pm then (if 11 = 12 then 12 else 11 + 12)
         else (if 11 = 12 then 0 else 11)) * 60 + 30 :=
  convert_to_24h_12h_rule.1 "11:30pm" 11 30 AmPm.pm (by decide) (by decide)
    (by decide)

/-! ## C10: `delete_events_by_title` with the empty needle -/

/-- The loop body of `delete_events_by_title`, named for the proofs. -/
def delStep (title : String) (acc : Store × List Event)
    (p : String × List Event) : Store × List Event :=
  let matching := p.2.filter (titleMatches title)
  let remaining := p.2.filter (fun e => ! titleMatches title e)
  (acc.1 ++ [(p.1, remaining)],
   if p.2.length ≠ remaining.length then acc.2 ++ matching else acc.2)

theorem delete_events_by_title_eq_foldl (s : Store) (title : String) :
    delete_events_by_title s title = s.foldl (delStep title) ([], []) := rfl

theorem isSubstrOf_nil (hay : List Char) : isSubstrOf [] hay = true := by
  cases hay with
  | nil => rfl
  | cons c t => simp [isSubstrOf, List.isPrefixOf]

theorem titleMatches_empty (e : Event) : titleMatches "" e = true := by
  have h : (lowerStr "").toList = [] := rfl
  rw [titleMatches, h]
  exact isSubstrOf_nil _

theorem delStep_empty (acc : Store × List Event) (p : String × List Event) :
    delStep "" acc p = (acc.1 ++ [(p.1, [])], acc.2 ++ p.2) := by
  have hmatch : p.2.filter (titleMatches "") = p.2 :=
    List.filter_eq_self.mpr (fun a _ => titleMatches_empty a)
  have hrem : p.2.filter (fun e => ! titleMatches "" e) = [] := by
    apply List.filter_eq_nil_iff.mpr
    intro a _
    simp [titleMatches_empty a]
  cases hp : p.2 with
  | nil =>
      simp [delStep, hp]
  | cons e t =>
      rw [delStep]
      simp only [hmatch, hrem]
      simp [hp]

theorem delete_events_by_title_empty_aux (s : Store) (acc1 : Store)
    (acc2 : List Event) :
    s.foldl (delStep "") (acc1, acc2)
      = (acc1 ++ s.map (fun p => (p.1, ([] : List Event))),
         acc2 ++ (s.map Prod.snd).flatten) := by
  induction s generalizing acc1 acc2 with
  | nil => simp
  | cons hd tl ih =>
      rw [List.foldl_cons, delStep_empty (acc1, acc2) hd]
      rw [ih]
      simp

/-- C10: with the empty string as needle, every event matches, so
`delete_events_by_title` empties every day (keeping the day keys) and
returns all previously present events in store order. -/
theorem delete_events_by_title_empty (s : Store) :
    (delete_events_by_title s "").1 = s.map (fun p => (p.1, ([] : List Event)))
    ∧ (delete_events_by_title s "").2 = (s.map Prod.snd).flatten := by
  rw [delete_events_by_title_eq_foldl, delete_events_by_title_empty_aux]
  simp

/-! ## C4: `reorganize_day` -/

theorem dget_dset_self (d : Dict) (k v : String) : dget (dset d k v) k = some v :=
  aget_aset_self d k v

theorem dget_dset_ne (d : Dict) (k k' v : String) (h : k ≠ k') :
    dget (dset d k v) k' = dget d k' :=
  aget_aset_ne d k k' v h

theorem titleIdMap_mem_aux (evs : List Event) (m : Dict) (t v : String) :
    aget (evs.foldl (fun m e => dset m (titleLower e) ((dget e idK).getD "")) m) t
      = some v →
    (∃ ex ∈ evs, titleLower ex = t ∧ (dget ex idK).getD "" = v)
    ∨ aget m t = some v := by
  induction evs generalizing m with
  | nil =>
      intro h
      exact Or.inr h
  | cons e rest ih =>
      intro h
      rw [List.foldl_cons] at h
      rcases ih (dset m (titleLower e) ((dget e idK).getD "")) h with h1 | h1
      · obtain ⟨ex, hex, ht, hv⟩ := h1
        exact Or.inl ⟨ex, List.mem_cons_of_mem e hex, ht, hv⟩
      · by_cases hk : titleLower e = t
        · subst hk
          rw [show aget (dset m (titleLower e) ((dget e idK).getD "")) (titleLower e)
              = some ((dget e idK).getD "") from aget_aset_self m _ _] at h1
          exact Or.inl ⟨e, List.mem_cons_self e rest, rfl, (Option.some.injEq _ _).mp h1⟩
        · rw [show aget (dset m (titleLower e) ((dget e idK).getD "")) t
              = aget m t from aget_aset_ne m _ t _ hk] at h1
          exact Or.inr h1

theorem titleIdMap_isSome_aux (evs : List Event) (m : Dict) (t : String) :
    ((∃ ex ∈ evs, titleLower ex = t) ∨ (aget m t).isSome) →
    (aget (evs.foldl (fun m e => dset m (titleLower e) ((dget e idK).getD "")) m) t).isSome := by
  induction evs generalizing m with
  | nil =>
      rintro (⟨ex, hex, _⟩ | h)
      · cases hex
      · exact h
  | cons e rest ih =>
      rintro (⟨ex, hex, ht⟩ | h)
      · rw [List.foldl_cons]
        rcases List.mem_cons.mp hex with he | he
        · subst he
          refine ih _ (Or.inr ?_)
          rw [ht]
          show (aget (aset m t ((dget ex idK).getD "")) t).isSome = true
          rw [aget_aset_self]
          rfl
        · exact ih _ (Or.inl ⟨ex, he, ht⟩)
      · rw [List.foldl_cons]
        refine ih _ (Or.inr ?_)
        exact aget_isSome_aset m (titleLower e) t _ h

theorem titleIdMap_mem (evs : List Event) (t v : String)
    (h : aget (titleIdMap evs) t = some v) :
    ∃ ex ∈ evs, titleLower ex = t ∧ (dget ex idK).getD "" = v := by
  rcases titleIdMap_mem_aux evs [] t v h with h1 | h1
  · exact h1
  · simp [aget] at h1

theorem titleIdMap_isSome (evs : List Event) (t : String)
    (h : ∃ ex ∈ evs, titleLower ex = t) :
    (aget (titleIdMap evs) t).isSome :=
  titleIdMap_isSome_aux evs [] t (Or.inl h)

theorem assignIds_spec (schedule : List Event) (m : Dict) (gen : Nat → String) :
    ∀ n : Nat,
    (assignIds schedule m gen n).1.length = schedule.length
    ∧ (∀ (j : Nat) (e : Event), schedule[j]? = some e →
        ∃ e', (assignIds schedule m gen n).1[j]? = some e'
          ∧ (dmem e idK = true → e' = e)
          ∧ (dmem e idK = false → ∀ k, k ≠ idK → dget e' k = dget e k)
          ∧ (dmem e idK = false → ∀ tid, dget m (titleLower e) = some tid →
              dget e' idK = some tid)
          ∧ (dmem e idK = false → dget m (titleLower e) = none →
              ∃ k, n ≤ k ∧ dget e' idK = some (gen k))) := by
  induction schedule with
  | nil =>
      intro n
      refine ⟨rfl, ?_⟩
      intro j e he
      simp at he
  | cons e rest ih =>
      intro n
      cases hd : dmem e idK with
      | true =>
          cases hAI : assignIds rest m gen n with
          | mk rest' n2 =>
              have hrun : assignIds (e :: rest) m gen n = (e :: rest', n2) := by
                simp [assignIds, hd, hAI]
              have ihn := ih n
              rw [hAI] at ihn
              refine ⟨by rw [hrun]; simpa using ihn.1, ?_⟩
              intro j x hx
              cases j with
              | zero =>
                  rw [List.getElem?_cons_zero] at hx
                  cases hx
                  refine ⟨e, by rw [hrun]; simp, fun _ => rfl, ?_, ?_, ?_⟩
                  all_goals intro habs; rw [hd] at habs; cases habs
              | succ i =>
                  have hx' : rest[i]? = some x := by simpa using hx
                  obtain ⟨e', he', hp⟩ := ihn.2 i x hx'
                  refine ⟨e', ?_, hp⟩
                  rw [hrun]
                  simpa using he'
      | false =>
          cases hm : dget m (titleLower e) with
          | some tid =>
              cases hAI : assignIds rest m gen n with
              | mk rest' n2 =>
                  have hrun : assignIds (e :: rest) m gen n
                      = (dset e idK tid :: rest', n2) := by
                    simp [assignIds, hd, hm, hAI]
                  have ihn := ih n
                  rw [hAI] at ihn
                  refine ⟨by rw [hrun]; simpa using ihn.1, ?_⟩
                  intro j x hx
                  cases j with
                  | zero =>
                      rw [List.getElem?_cons_zero] at hx
                      cases hx
                      refine ⟨dset e idK tid, by rw [hrun]; simp, ?_, ?_, ?_, ?_⟩
                      · intro habs; rw [hd] at habs; cases habs
                      · intro _ k hk
                        exact dget_dset_ne e idK k tid (Ne.symm hk)
                      · intro _ tid' htid'
                        rw [hm] at htid'
                        cases htid'
                        exact dget_dset_self e idK tid
                      · intro _ habs
                        rw [hm] at habs
                        cases habs
                  | succ i =>
                      have hx' : rest[i]? = some x := by simpa using hx
                      obtain ⟨e', he', hp⟩ := ihn.2 i x hx'
                      refine ⟨e', ?_, hp⟩
                      rw [hrun]
                      simpa using he'
          | none =>
              cases hAI : assignIds rest m gen (n + 1) with
              | mk rest' n2 =>
                  have hrun : assignIds (e :: rest) m gen n
                      = (dset e idK (gen n) :: rest', n2) := by
                    simp [assignIds, hd, hm, hAI]
                  have ihn := ih (n + 1)
                  rw [hAI] at ihn
                  refine ⟨by rw [hrun]; simpa using ihn.1, ?_⟩
                  intro j x hx
                  cases j with
                  | zero =>
                      rw [List.getElem?_cons_zero] at hx
                      cases hx
                      refine ⟨dset e idK (gen n), by rw [hrun]; simp, ?_, ?_, ?_, ?_⟩
                      · intro habs; rw [hd] at habs; cases habs
                      · intro _ k hk
                        exact dget_dset_ne e idK k (gen n) (Ne.symm hk)
                      · intro _ tid' htid'
                        rw [hm] at htid'
                        cases htid'
                      · intro _ _
                        exact ⟨n, Nat.le_refl n, dget_dset_self e idK (gen n)⟩
                  | succ i =>
                      have hx' : rest[i]? = some x := by simpa using hx
                      obtain ⟨e', he', hp⟩ := ihn.2 i x hx'
                      refine ⟨e', ?_, ⟨hp.1, hp.2.1, hp.2.2.1, ?_⟩⟩
                      · rw [hrun]
                        simpa using he'
                      · intro h1 h2
                        obtain ⟨k, hk, hgk⟩ := hp.2.2.2 h1 h2
                        exact ⟨k, Nat.le_of_succ_le hk, hgk⟩

theorem geday_ensure (s : Store) (date : String) :
    get_events_for_day (if smem s date then s else sset s date []) date
      = get_events_for_day s date := by
  by_cases h : smem s date
  · simp [h]
  · have hnone : sget s date = none := by
      cases hs : sget s date with
      | none => rfl
      | some l =>
          rw [show smem s date = true by simp [smem, hs]] at h
          cases h rfl
    simp only [h, Bool.false_eq_true, if_false]
    simp [get_events_for_day, sget_sset_self, hnone]

/-- C4: `reorganize_day` always returns true and replaces the day's list
with the incoming schedule; an incoming event that already has an id is
kept as is; one lacking an id whose lower-cased title equals that of some
pre-existing event of the day inherits that event's id; any other
id-lacking event gets a generated id (with generation counter at least n),
its other fields untouched. -/
theorem reorganize_day_spec (s : Store) (date : String) (schedule : List Event)
    (gen : Nat → String) (n : Nat)
    (hwf : ∀ ex ∈ get_events_for_day s date, (dget ex idK).isSome) :
    (reorganize_day s date schedule gen n).2.1 = true
    ∧ (get_events_for_day (reorganize_day s date schedule gen n).1 date).length
        = schedule.length
    ∧ (∀ (j : Nat) (e : Event), schedule[j]? = some e →
        ∃ e', (get_events_for_day (reorganize_day s date schedule gen n).1 date)[j]?
            = some e'
          ∧ (dmem e idK = true → e' = e)
          ∧ (dmem e idK = false → ∀ k, k ≠ idK → dget e' k = dget e k)
          ∧ (dmem e idK = false →
              (∃ ex ∈ get_events_for_day s date, titleLower ex = titleLower e) →
              ∃ ex ∈ get_events_for_day s date,
                titleLower ex = titleLower e ∧ dget e' idK = dget ex idK)
          ∧ (dmem e idK = false →
              (∀ ex ∈ get_events_for_day s date, titleLower ex ≠ titleLower e) →
              ∃ k, n ≤ k ∧ dget e' idK = some (gen k))) := by
  cases hAI : assignIds schedule (titleIdMap (get_events_for_day s date)) gen n with
  | mk sched' n2 =>
      have hrun : reorganize_day s date schedule gen n
          = (sset (if smem s date then s else sset s date []) date sched', true, n2) := by
        simp only [reorganize_day, geday_ensure, hAI]
      have hg : get_events_for_day (reorganize_day s date schedule gen n).1 date
          = sched' := by
        rw [hrun]
        simp [get_events_for_day, sget_sset_self]
      have hspec := assignIds_spec schedule (titleIdMap (get_events_for_day s date)) gen n
      rw [hAI] at hspec
      refine ⟨by rw [hrun], by rw [hg]; simpa using hspec.1, ?_⟩
      intro j e he
      obtain ⟨e', he', h1, h2, h3, h4⟩ := hspec.2 j e he
      refine ⟨e', by rw [hg]; simpa using he', h1, h2, ?_, ?_⟩
      · intro hdm hex
        have hsome := titleIdMap_isSome (get_events_for_day s date) (titleLower e) hex
        cases htid : aget (titleIdMap (get_events_for_day s date)) (titleLower e) with
        | none => rw [htid] at hsome; cases hsome
        | some tid =>
            obtain ⟨ex, hexm, hext, hexv⟩ :=
              titleIdMap_mem (get_events_for_day s date) (titleLower e) tid htid
            refine ⟨ex, hexm, hext, ?_⟩
            rw [h3 hdm tid htid]
            have := hwf ex hexm
            cases hid : dget ex idK with
            | none => rw [hid] at this; cases this
            | some v =>
                rw [hid] at hexv
                simp at hexv
                rw [hexv]
      · intro hdm hnex
        cases htid : aget (titleIdMap (get_events_for_day s date)) (titleLower e) with
        | none => exact h4 hdm htid
        | some tid =>
            obtain ⟨ex, hexm, hext, _⟩ :=
              titleIdMap_mem (get_events_for_day s date) (titleLower e) tid htid
            cases hnex ex hexm hext

/-- C4 witness inputs: an existing "Standup" with id X, an incoming
lower-case "standup" without id. -/
def c4Existing : Event :=
  [(idK, "X"), (titleK, "Standup"), (startK, "9am"), (endK, "10am"), (descK, "")]

def c4Store : Store :=
  [( "2025-01-01", [c4Existing])]

def c4Incoming : Event :=
  [(titleK, "standup"), (startK, "10am"), (endK, "11am"), (descK, "")]

def c4Gen : Nat → String :=
  fun k => "uuid-" ++ toString k

/-- Witness for C4: the id-lacking incoming "standup" inherits id X from
the existing "Standup". -/
theorem reorganize_day_spec_witness :
    (reorganize_day c4Store "2025-01-01" [ c4Incoming ] c4Gen 0).2.1 = true
    ∧ ∃ e',
        (get_events_for_day
          (reorganize_day c4Store "2025-01-01" [ c4Incoming ] c4Gen 0).1
          "2025-01-01")[0]? = some e'
        ∧ dget e' idK = some "X" := by
  have h := reorganize_day_spec c4Store "2025-01-01" [ c4Incoming ] c4Gen 0
    (by decide)
  obtain ⟨e', he', _, _, hinh, _⟩ := h.2.2 0 c4Incoming (by decide)
  obtain ⟨ex, hexm, _, hid⟩ := hinh (by decide) (by decide)
  have hx : ex = c4Existing := by simpa [c4Store, get_events_for_day, sget, aget] using hexm
  refine ⟨h.1, e', he', ?_⟩
  rw [hid, hx]
  decide

/-! ## C3: clear_day entries in the dispatcher -/

def clearOp (date : String) : OpEntry :=
  [( "operation", OVal.s "clear_day"), ("date", OVal.s date)]

/-- C3 counterexample: a clear_day entry carrying a date, on an empty
store: `clear_day` succeeds and returns the empty list, which is falsy, so
no confirmation line is appended and the sentinel is returned. -/
theorem clear_day_empty_no_confirmation :
    (processAux [ clearOp "2025-01-01" ] [] c4Gen 0).1 = []
    ∧ (process_calendar_operations [ clearOp "2025-01-01" ] [] c4Gen 0).1
        = "No calendar operations performed." := by
  constructor
  · rfl
  · rfl

/-- C3 (amended): a clear_day entry with a nonempty date yields the
"Cleared n events" confirmation line exactly when the day held at least
one event; an absent or empty day yields no line. -/
theorem process_clear_day_spec (s : Store) (gen : Nat → String) (n : Nat)
    (date : String) (hd : date ≠ "") :
    (processAux [ clearOp date ] s gen n).1
      = (if get_events_for_day s date = [] then []
         else [ "Cleared " ++ toString (get_events_for_day s date).length
                  ++ " events from " ++ date ])
    ∧ (processAux [ clearOp date ] s gen n).2.1 = (clear_day s date).1 := by
  have h1 : oget (clearOp date) "operation" = some (OVal.s "clear_day") := rfl
  have h2 : oget (clearOp date) "date" = some (OVal.s date) := rfl
  have h3 : truthy (clearOp date) "date" = true := by
    simp [truthy, h2, hd]
  have h4 : ogetStr (clearOp date) "date" = date := rfl
  have hone : processOne (clearOp date) s gen n
      = ((if (clear_day s date).2 ≠ [] then
            [ "Cleared " ++ toString (clear_day s date).2.length
                ++ " events from " ++ date ]
          else []), (clear_day s date).1, n) := by
    simp only [processOne, h1, h3, h4]
    simp
  cases hs : sget s date with
  | none =>
      have hclear : clear_day s date = (s, []) := by
        simp [clear_day, hs]
      have hgev : get_events_for_day s date = [] := by
        simp [get_events_for_day, hs]
      simp [processAux, hone, hclear, hgev]
  | some evs =>
      have hclear : clear_day s date = (sset s date [], evs) := by
        simp [clear_day, hs]
      have hgev : get_events_for_day s date = evs := by
        simp [get_events_for_day, hs]
      by_cases he : evs = []
      · subst he
        simp [processAux, hone, hclear, hgev]
      · simp [processAux, hone, hclear, hgev, he]

/-- Witness for C3 (amended): nonempty day yields the counted line, empty
store yields none. -/
theorem process_clear_day_spec_witness :
    (processAux [ clearOp "2025-01-01" ] c1Store c4Gen 0).1
      = [ "Cleared 1 events from 2025-01-01" ]
    ∧ (processAux [ clearOp "2025-01-01" ] ([] : Store) c4Gen 0).1 = [] := by
  constructor
  · have h := (process_clear_day_spec c1Store c4Gen 0 "2025-01-01" (by decide)).1
    rw [h]
    decide
  · have h := (process_clear_day_spec ([] : Store) c4Gen 0 "2025-01-01" (by decide)).1
    rw [h]
    decide

/-! ## C6: batch processing order, failure isolation, sentinel -/

def delOp (date event_id : String) : OpEntry :=
  [( "operation", OVal.s "delete_event"), ("date", OVal.s date),
   ("event_id", OVal.s event_id)]

def c6EventA : Event :=
  [(idK, "a"), (titleK, "t1"), (startK, "9am"), (endK, "10am"), (descK, "")]

def c6EventB : Event :=
  [(idK, "b"), (titleK, "t2"), (startK, "11am"), (endK, "12pm"), (descK, "")]

def c6Store : Store :=
  [( "2025-01-01", [c6EventA, c6EventB])]

/-- C6: entries are processed in order and a failing entry (unknown id)
contributes no line and does not abort the batch — the three-entry batch
whose second entry targets a nonexistent id yields exactly the lines of
entries one and three, in order; and a batch with zero confirmations
(empty batch included) yields exactly the sentinel string. -/
theorem process_batch_spec :
    (∀ (ops : List OpEntry) (s : Store) (gen : Nat → String) (n : Nat),
        (processAux ops s gen n).1 = [] →
        (process_calendar_operations ops s gen n).1
          = "No calendar operations performed.")
    ∧ (∀ (s : Store) (gen : Nat → String) (n : Nat),
        process_calendar_operations [] s gen n
          = ("No calendar operations performed.", s, n))
    ∧ (processAux
        [ delOp "2025-01-01" "a", delOp "2025-01-01" "zz", delOp "2025-01-01" "b" ]
        c6Store c4Gen 0).1
        = [ "Deleted event with ID a", "Deleted event with ID b" ]
    ∧ (process_calendar_operations
        [ delOp "2025-01-01" "a", delOp "2025-01-01" "zz", delOp "2025-01-01" "b" ]
        c6Store c4Gen 0).1
        = "Deleted event with ID a\nDeleted event with ID b" := by
  refine ⟨?_, ?_, by decide, ?_⟩
  · intro ops s gen n h
    simp [process_calendar_operations, h]
  · intro s gen n
    rfl
  · rfl

/-- Witness for C6's sentinel clause: a batch whose single entry is skipped
(unrecognized kind) produces the sentinel. -/
theorem process_batch_spec_witness :
    (process_calendar_operations
      [ [( "operation", OVal.s "unknown_kind") ] ] c6Store c4Gen 0).1
      = "No calendar operations performed." :=
  process_batch_spec.1 [ [( "operation", OVal.s "unknown_kind") ] ] c6Store c4Gen 0
    (by decide)

/-! ## C5: command extraction -/

theorem selectOps_first (bs : List (List Char)) :
    ∀ (i : Nat) (b : List Char) (ops : Json),
    bs[i]? = some b →
    (∀ (j : Nat) (b' : List Char), j < i → bs[j]? = some b' → tryBlock b' = none) →
    tryBlock b = some ops → selectOps bs = ops := by
  induction bs with
  | nil =>
      intro i b ops hb _ _
      simp at hb
  | cons hd tl ih =>
      intro i b ops hb hprev htb
      cases i with
      | zero =>
          rw [List.getElem?_cons_zero] at hb
          cases hb
          simp [selectOps, htb]
      | succ i =>
          have hhd : tryBlock hd = none :=
            hprev 0 hd (Nat.succ_pos i) (by simp)
          rw [List.getElem?_cons_succ] at hb
          have hrec := ih i b ops hb
            (fun j b' hj hb' =>
              hprev (j + 1) b' (Nat.succ_lt_succ hj) (by simpa using hb'))
            htb
          simp [selectOps, hhd, hrec]

theorem selectOps_none (bs : List (List Char))
    (h : ∀ b ∈ bs, tryBlock b = none) : selectOps bs = Json.arr [] := by
  induction bs with
  | nil => rfl
  | cons hd tl ih =>
      have hhd := h hd (List.mem_cons_self hd tl)
      have htl : ∀ b ∈ tl, tryBlock b = none :=
        fun b hb => h b (List.mem_cons_of_mem hd hb)
      simp [selectOps, hhd, ih htl]

def c5Block1 : String := "\x7binvalid\x7d"

def c5Block2 : String :=
  "\x7b \"calendar_operations\": [\x7b\"operation\": \"clear_day\", \"date\": \"2025-01-02\"\x7d] \x7d"

/-- C5: extraction returns the value under the recognized key of the first
candidate block that parses (strictly or after the single-quote repair) and
carries the key; earlier failing candidates are skipped, later ones are
ignored, and with no qualifying candidate the result is the empty array.
Concretely: of two fenced blocks where only the second is valid, the second
block's operations are returned, and a single-quoted block is recovered via
the repair. -/
theorem extract_spec :
    (∀ (text : String) (i : Nat) (b : List Char) (ops : Json),
        (candidateBlocks text.toList)[i]? = some b →
        (∀ (j : Nat) (b' : List Char), j < i →
            (candidateBlocks text.toList)[j]? = some b' → tryBlock b' = none) →
        tryBlock b = some ops →
        extract_calendar_operations text = ops)
    ∧ (∀ text : String,
        (∀ b ∈ candidateBlocks text.toList, tryBlock b = none) →
        extract_calendar_operations text = Json.arr [])
    ∧ extract_calendar_operations twoBlockText = Json.arr [ clearDayOp "2025-01-02" ]
    ∧ extract_calendar_operations singleQuoteText = Json.arr [ clearDayOp "2025-01-03" ] := by
  refine ⟨?_, ?_, by rfl, by rfl⟩
  · intro text i b ops hb hprev htb
    exact selectOps_first (candidateBlocks text.toList) i b ops hb hprev htb
  · intro text h
    exact selectOps_none (candidateBlocks text.toList) h

/-- Witness for C5: the two-block text, with the first block's double parse
failure discharged concretely. -/
theorem extract_spec_witness :
    extract_calendar_operations twoBlockText = Json.arr [ clearDayOp "2025-01-02" ] := by
  apply extract_spec.1 twoBlockText 1 c5Block2.toList
    (Json.arr [ clearDayOp "2025-01-02" ])
  · rfl
  · intro j b' hj hb'
    have hj0 : j = 0 := Nat.lt_one_iff.mp hj
    subst hj0
    rw [show (candidateBlocks twoBlockText.toList)[0]? = some c5Block1.toList
        from rfl] at hb'
    cases hb'
    rfl
  · rfl

example : convert_to_24h "9:00am" = 540 := by decide
example : convert_to_24h "12:00pm" = 720 := by decide
example : convert_to_24h "12:00am" = 0 := by decide
example : convert_to_24h "11:30pm" = 1410 := by decide
example : convert_to_24h "25:00" = 1500 := by decide
example : convert_to_24h " 7 PM " = 1140 := by decide
example : convert_to_24h "noon" = 0 := by decide
example : convert_to_24h "930am" = 55800 := by decide

end CalenAI
